import Mathlib

/-!
Shallow embedding of the dataset-generation / train-test-split /
autoregressive-rollout pipeline of `Lorenz_NN.py` and `NN_ODE.py`
(tarzolar/Neural-Networks-and-Dynamical-Systems).

Both scripts share one structure; the embedding is generic in the state
type `S` (3-dimensional for the chaotic system, 2-dimensional for the
population system).  The numerical integrator `odeint` and the trained
regressor `predict` are external collaborators and appear as function
parameters; the rational `4/5` stands for the split fraction `0.8`.
-/

namespace NNDS

universe u

variable {S : Type u}

/-- Mirrors `solution[:-1]` (lines 50-52 of Lorenz_NN.py, 41-42 of
NN_ODE.py): the per-trajectory input slice, all states but the last. -/
def pairInputs (solution : List S) : List S :=
  solution.dropLast

/-- Mirrors `solution[1:]` (lines 53-55 of Lorenz_NN.py, 43-44 of
NN_ODE.py): the per-trajectory output slice, all states but the first. -/
def pairOutputs (solution : List S) : List S :=
  solution.drop 1

/-- The transition pairs of one trajectory: row k of the input slice
paired with row k of the output slice (the `column_stack` pairing of
`X_train` with `y_train`, restricted to one trajectory). -/
def transitionPairs (solution : List S) : List (S × S) :=
  (pairInputs solution).zip (pairOutputs solution)

/-- Mirrors the generation loop (`for i in range(100): ... solution =
odeint(...)`): one integrated trajectory per sampled initial condition.
The integrator is external, so it is a parameter. -/
def generateTrajectories (odeint : S → List S) (inits : List S) : List (List S) :=
  inits.map odeint

/-- The per-trajectory input table `X_inputs` / `P_inputs`-`F_inputs`:
one row per trajectory, each row the `[:-1]` slice of its solution. -/
def inputTable (odeint : S → List S) (inits : List S) : List (List S) :=
  (generateTrajectories odeint inits).map pairInputs

/-- The per-trajectory output table `X_outputs` / `P_outputs`-`F_outputs`:
one row per trajectory, each row the `[1:]` slice of its solution. -/
def outputTable (odeint : S → List S) (inits : List S) : List (List S) :=
  (generateTrajectories odeint inits).map pairOutputs

/-- Mirrors `split_index = int(0.8 * num_samples)` with the exact
rational split fraction: `⌊f * N⌋₊`. -/
def split_index (f : ℚ) (num_samples : ℕ) : ℕ :=
  ⌊f * (num_samples : ℚ)⌋₊

/-- Mirrors `train_indices = indices[:split_index]` applied to the
shuffled index list. -/
def train_indices (shuffled : List ℕ) (k : ℕ) : List ℕ :=
  shuffled.take k

/-- Mirrors `test_indices = indices[split_index:]` applied to the
shuffled index list. -/
def test_indices (shuffled : List ℕ) (k : ℕ) : List ℕ :=
  shuffled.drop k

/-- Mirrors numpy fancy indexing `table[idxs]`: the rows of `tab` at the
positions listed in `idxs` (positions are always in range in the
scripts; out-of-range positions yield an empty row here). -/
def selectRows (tab : List (List S)) (idxs : List ℕ) : List (List S) :=
  idxs.map fun i => tab.getD i []

/-- Mirrors `.flatten()` applied after the split: the selected rows
concatenated into one flat table. -/
def flattenRows (rows : List (List S)) : List S :=
  rows.flatten

/-- Row selection followed by flattening, the exact order of the
scripts: split first (lines 80-92), flatten after (lines 119-133). -/
def selectFlatten (tab : List (List S)) (idxs : List ℕ) : List S :=
  flattenRows (selectRows tab idxs)

/-- Each entry of a table tagged with the index of the trajectory (row)
it comes from; used to state provenance of flattened entries. -/
def tagRows (tab : List (List S)) : List (List (ℕ × S)) :=
  tab.enum.map fun p => p.2.map fun x => (p.1, x)

/-- The flattened Train Dataset of a run: input table and output table
restricted to the train indices, flattened, and paired row-by-row
(`X_train` with `y_train`).  `num_samples` is the row count of the
input table, as in the scripts. -/
def trainDatasetOf (odeint : S → List S) (inits : List S) (shuffled : List ℕ) :
    List (S × S) :=
  let inTab := inputTable odeint inits
  let outTab := outputTable odeint inits
  let k := split_index (4/5) inTab.length
  (selectFlatten inTab (train_indices shuffled k)).zip
    (selectFlatten outTab (train_indices shuffled k))

/-- The flattened Test Dataset of a run (`X_test` with `y_test`). -/
def testDatasetOf (odeint : S → List S) (inits : List S) (shuffled : List ℕ) :
    List (S × S) :=
  let inTab := inputTable odeint inits
  let outTab := outputTable odeint inits
  let k := split_index (4/5) inTab.length
  (selectFlatten inTab (test_indices shuffled k)).zip
    (selectFlatten outTab (test_indices shuffled k))

/-- Mirrors the prediction loop body: `last` is the current state,
`predictions` the accumulated rollout, and the counter the number of
remaining grid points (`for time in t: last = model.predict(last);
predictions.append(last)`). -/
def rolloutAux (predict : S → S) : S → List S → ℕ → List S
  | _, predictions, 0 => predictions
  | last, predictions, n + 1 =>
      rolloutAux predict (predict last) (predictions ++ [predict last]) n

/-- The full rollout (lines 164-169 of Lorenz_NN.py, 171-176 of
NN_ODE.py): the seed is appended before the loop, then one prediction
per time-grid point, each fed back as the next input. -/
def rollout (predict : S → S) (seed : S) (steps : ℕ) : List S :=
  rolloutAux predict seed [seed] steps

/-- Observable pipeline events of the population-system variant
(NN_ODE.py): trajectory generation, artifact reads and writes,
training. -/
inductive Ev : Type
  | generateTraj
  | saveData
  | loadData
  | trainModel
  | saveModel
  | loadModel
  deriving DecidableEq

/-- Mirrors `if os.path.exists(data_file): load ... else: generate_data`
(lines 60-67 of NN_ODE.py); `generate_data` itself saves the arrays
(line 53). -/
def dataEvents (dataExists : Bool) : List Ev :=
  if dataExists then [Ev.loadData] else [Ev.generateTraj, Ev.saveData]

/-- Mirrors `if os.path.exists(model_file): load_model ... else: build,
fit, save` (lines 136-155 of NN_ODE.py). -/
def modelEvents (modelExists : Bool) : List Ev :=
  if modelExists then [Ev.loadModel] else [Ev.trainModel, Ev.saveModel]

/-- Observable outcome of one NN_ODE.py run: the event trace and the
train/test index split it evaluates with. -/
structure RunResult where
  events : List Ev
  train : List ℕ
  test : List ℕ

/-- One run of NN_ODE.py as a function of the two artifact-existence
facts and the fresh shuffle drawn by `np.random.shuffle` (lines 73-74,
executed unconditionally, before and independent of the model branch). -/
def runPipeline (dataExists modelExists : Bool) (shuffled : List ℕ)
    (num_samples : ℕ) : RunResult :=
  { events := dataEvents dataExists ++ modelEvents modelExists
    train := train_indices shuffled (split_index (4/5) num_samples)
    test := test_indices shuffled (split_index (4/5) num_samples) }

/-! ### General lemmas about the embedded operations -/

theorem rolloutAux_eq (predict : S → S) (last : S) (predictions : List S) (n : ℕ) :
    rolloutAux predict last predictions n =
      predictions ++ List.iterate predict (predict last) n := by
  induction n generalizing last predictions with
  | zero => simp [rolloutAux]
  | succ n ih =>
      rw [rolloutAux, ih, List.iterate]
      simp

theorem rollout_eq (predict : S → S) (seed : S) (steps : ℕ) :
    rollout predict seed steps = List.iterate predict seed (steps + 1) := by
  rw [rollout, rolloutAux_eq, List.iterate]
  simp

theorem length_selectFlatten (tab : List (List S)) (idxs : List ℕ) (m : ℕ)
    (hrow : ∀ row ∈ tab, row.length = m) (hidx : ∀ i ∈ idxs, i < tab.length) :
    (selectFlatten tab idxs).length = idxs.length * m := by
  induction idxs with
  | nil => simp [selectFlatten, selectRows, flattenRows]
  | cons i is ih =>
      have hi : i < tab.length := hidx i (List.mem_cons_self i is)
      have hmem : tab.getD i [] ∈ tab := by
        rw [List.getD_eq_getElem tab [] hi]
        exact List.getElem_mem hi
      have hrest : ∀ j ∈ is, j < tab.length := fun j hj =>
        hidx j (List.mem_cons_of_mem i hj)
      simp only [selectFlatten, selectRows, flattenRows, List.map_cons,
        List.flatten_cons, List.length_append, List.length_cons] at ih ⊢
      rw [hrow _ hmem, ih hrest]
      ring

theorem mem_selectFlatten {tab : List (List S)} {idxs : List ℕ} {x : S}
    (hx : x ∈ selectFlatten tab idxs) :
    ∃ i ∈ idxs, x ∈ tab.getD i [] := by
  simp only [selectFlatten, selectRows, flattenRows, List.mem_flatten,
    List.mem_map] at hx
  obtain ⟨row, ⟨i, hi, rfl⟩, hxrow⟩ := hx
  exact ⟨i, hi, hxrow⟩

theorem fst_of_mem_tagRows {tab : List (List S)} {i : ℕ} {x : ℕ × S}
    (hx : x ∈ (tagRows tab).getD i []) : x.1 = i := by
  by_cases h : i < tab.length
  · have hlen : i < (tagRows tab).length := by
      simpa [tagRows] using h
    rw [List.getD_eq_getElem _ [] hlen] at hx
    simp only [tagRows, List.getElem_map, List.getElem_enum, List.mem_map] at hx
    obtain ⟨s, _, rfl⟩ := hx
    rfl
  · have hlen : (tagRows tab).length ≤ i := by
      simpa [tagRows] using Nat.le_of_not_lt h
    rw [List.getD_eq_default _ [] hlen] at hx
    simp at hx

/-! ### Claim theorems -/

/-- C4: for every trajectory of length L ≥ 1 the pair builder emits
exactly L−1 transition pairs, and pair k is (state k, state k+1): its
input and target are states of the same trajectory at adjacent grid
indices. -/
theorem C4_pair_builder (sol : List S) (hL : 1 ≤ sol.length) :
    (transitionPairs sol).length = sol.length - 1 ∧
    ∀ k, k + 1 < sol.length →
      (transitionPairs sol)[k]? =
        (sol[k]?).bind fun a => (sol[k + 1]?).map fun b => (a, b) := by
  constructor
  · simp [transitionPairs, pairInputs, pairOutputs]
  · intro k hk
    obtain ⟨a, ha⟩ : ∃ a, sol[k]? = some a :=
      ⟨_, List.getElem?_eq_getElem (by omega)⟩
    obtain ⟨b, hb⟩ : ∃ b, sol[k + 1]? = some b :=
      ⟨_, List.getElem?_eq_getElem hk⟩
    have h1 : (pairInputs sol)[k]? = sol[k]? := by
      rw [pairInputs, List.getElem?_dropLast, if_pos (by omega)]
    have h2 : (pairOutputs sol)[k]? = sol[k + 1]? := by
      rw [pairOutputs, List.getElem?_drop, Nat.add_comm]
    have hzip : (transitionPairs sol)[k]? = some (a, b) := by
      rw [transitionPairs, List.getElem?_zip_eq_some]
      exact ⟨h1.trans ha, h2.trans hb⟩
    rw [hzip, ha, hb]
    rfl

/-- C4 witness: the theorem applied to the concrete trajectory
[0, 1, 2, 3]. -/
theorem C4_pair_builder_witness :
    (transitionPairs [0, 1, 2, 3]).length = 3 ∧
    ∀ k, k + 1 < 4 →
      (transitionPairs [0, 1, 2, 3])[k]? =
        (([0, 1, 2, 3] : List ℕ)[k]?).bind fun a =>
          (([0, 1, 2, 3] : List ℕ)[k + 1]?).map fun b => (a, b) :=
  C4_pair_builder [0, 1, 2, 3] (by decide)

/-- C5: for every step count (the time-grid size) and seed state, the
rollout has length steps + 1, element 0 equals the seed exactly, and
element i+1 equals predict applied to element i for every i below the
step count — the model output is fed back as the next input with no
correction. -/
theorem C5_rollout_autoregressive (predict : S → S) (seed : S) (steps : ℕ) :
    (rollout predict seed steps).length = steps + 1 ∧
    (rollout predict seed steps)[0]? = some seed ∧
    ∀ i, i < steps →
      (rollout predict seed steps)[i + 1]? =
        ((rollout predict seed steps)[i]?).map predict := by
  rw [rollout_eq]
  refine ⟨by simp, ?_, ?_⟩
  · rw [List.getElem?_iterate predict seed (steps + 1) 0 (by omega)]
    simp
  · intro i hi
    rw [List.getElem?_iterate predict seed (steps + 1) (i + 1) (by omega),
        List.getElem?_iterate predict seed (steps + 1) i (by omega)]
    simp [Function.iterate_succ_apply']

/-- C5 witness: the theorem applied to the successor function on ℕ,
seed 0, three steps. -/
theorem C5_rollout_witness :
    (rollout Nat.succ 0 3).length = 4 ∧
    (rollout Nat.succ 0 3)[0]? = some 0 ∧
    ∀ i, i < 3 →
      (rollout Nat.succ 0 3)[i + 1]? =
        ((rollout Nat.succ 0 3)[i]?).map Nat.succ :=
  C5_rollout_autoregressive Nat.succ 0 3

/-- C9: the input and output tables are overlapping one-step-shifted
slices of the same integrated solution: for every k with k + 2 below
the trajectory length, input column k+1 equals output column k (both
are state k+1), so the target of pair k is the input of pair k+1. -/
theorem C9_pairs_chain (sol : List S) (k : ℕ) (hk : k + 2 < sol.length) :
    (pairInputs sol)[k + 1]? = (pairOutputs sol)[k]? ∧
    (pairOutputs sol)[k]? = sol[k + 1]? := by
  have h2 : (pairOutputs sol)[k]? = sol[k + 1]? := by
    rw [pairOutputs, List.getElem?_drop, Nat.add_comm]
  have h1 : (pairInputs sol)[k + 1]? = sol[k + 1]? := by
    rw [pairInputs, List.getElem?_dropLast, if_pos (by omega)]
  exact ⟨h1.trans h2.symm, h2⟩

/-- C9 witness: the theorem applied to the concrete trajectory
[0, 1, 2, 3] at k = 1. -/
theorem C9_pairs_chain_witness :
    (pairInputs [0, 1, 2, 3])[2]? = (pairOutputs [0, 1, 2, 3])[1]? ∧
    (pairOutputs [0, 1, 2, 3])[1]? = ([0, 1, 2, 3] : List ℕ)[2]? :=
  C9_pairs_chain [0, 1, 2, 3] 1 (by decide)

theorem split_index_le (N : ℕ) (f : ℚ) (hf1 : f ≤ 1) : split_index f N ≤ N := by
  have h1 : f * (N : ℚ) ≤ (N : ℚ) := mul_le_of_le_one_left (by positivity) hf1
  calc split_index f N = ⌊f * (N : ℚ)⌋₊ := rfl
    _ ≤ ⌊((N : ℚ))⌋₊ := Nat.floor_mono h1
    _ = N := Nat.floor_natCast N

/-- C2: for every trajectory count N and split fraction f ∈ [0, 1], any
shuffle of the N indices cut at floor(f × N) gives a train slice and a
test remainder that are disjoint, jointly a permutation of the full
index set 0..N−1, with the train slice of length floor(f × N) and the
test size within one trajectory of (1 − f) × N. -/
theorem C2_splitter (N : ℕ) (f : ℚ) (shuffled : List ℕ)
    (hf0 : 0 ≤ f) (hf1 : f ≤ 1) (hperm : shuffled.Perm (List.range N)) :
    (train_indices shuffled (split_index f N)).Disjoint
      (test_indices shuffled (split_index f N)) ∧
    (train_indices shuffled (split_index f N) ++
      test_indices shuffled (split_index f N)).Perm (List.range N) ∧
    (train_indices shuffled (split_index f N)).length = split_index f N ∧
    |((test_indices shuffled (split_index f N)).length : ℚ) - (1 - f) * N| < 1 := by
  have hlen : shuffled.length = N := hperm.length_eq.trans (List.length_range N)
  have hnodup : shuffled.Nodup := hperm.nodup_iff.mpr (List.nodup_range N)
  have hkN : split_index f N ≤ N := split_index_le N f hf1
  refine ⟨List.disjoint_take_drop hnodup le_rfl, ?_, ?_, ?_⟩
  · rw [train_indices, test_indices, List.take_append_drop]
    exact hperm
  · rw [train_indices, List.length_take, hlen]
    exact min_eq_left hkN
  · have htest : ((test_indices shuffled (split_index f N)).length : ℚ) =
        (N : ℚ) - (split_index f N : ℚ) := by
      rw [test_indices, List.length_drop, hlen, Nat.cast_sub hkN]
    have hfl : ((split_index f N : ℕ) : ℚ) ≤ f * N := Nat.floor_le (by positivity)
    have hfl2 : f * (N : ℚ) < (split_index f N : ℚ) + 1 := Nat.lt_floor_add_one _
    rw [htest, abs_lt]
    constructor <;> nlinarith [hfl, hfl2]

/-- C2 witness: the theorem applied to N = 5, f = 4/5, and the identity
shuffle. -/
theorem C2_splitter_witness :
    (train_indices (List.range 5) (split_index (4/5) 5)).Disjoint
      (test_indices (List.range 5) (split_index (4/5) 5)) ∧
    (train_indices (List.range 5) (split_index (4/5) 5) ++
      test_indices (List.range 5) (split_index (4/5) 5)).Perm (List.range 5) ∧
    (train_indices (List.range 5) (split_index (4/5) 5)).length =
      split_index (4/5) 5 ∧
    |((test_indices (List.range 5) (split_index (4/5) 5)).length : ℚ) -
      (1 - 4/5) * 5| < 1 :=
  C2_splitter 5 (4/5) (List.range 5) (by norm_num) (by norm_num) (List.Perm.refl _)

/-- C3 counterexample: with N = 1 trajectory and f = 4/5 we have
N × (1 − f) = 1/5 < 1, yet the test slice is [0], not empty — the cut
index floor(4/5 × 1) = 0 puts the single trajectory in the Test set. -/
theorem C3_counterexample :
    1 ≤ (1 : ℕ) ∧ ((1 : ℕ) : ℚ) * (1 - 4/5) < 1 ∧
    test_indices (List.range 1) (split_index (4/5) 1) = [0] ∧
    test_indices (List.range 1) (split_index (4/5) 1) ≠ [] := by
  have h : split_index (4/5) 1 = 0 := by
    rw [split_index]
    norm_num
  refine ⟨le_refl 1, by norm_num, ?_, ?_⟩ <;> rw [h] <;> decide

/-- C3 amended: for every N ≥ 1 and split fraction f ∈ [0, 1] with
N × (1 − f) < 1, the Test set has N − floor(f × N) ≤ 1 trajectories —
at most one, and possibly exactly one rather than none — and this is
accepted rather than an error. -/
theorem C3_degenerate_split (N : ℕ) (f : ℚ) (shuffled : List ℕ) (hN : 1 ≤ N)
    (hf0 : 0 ≤ f) (hf1 : f ≤ 1) (hdeg : (N : ℚ) * (1 - f) < 1)
    (hperm : shuffled.Perm (List.range N)) :
    (test_indices shuffled (split_index f N)).length = N - split_index f N ∧
    (test_indices shuffled (split_index f N)).length ≤ 1 := by
  have hlen : shuffled.length = N := hperm.length_eq.trans (List.length_range N)
  have hlow : ((N - 1 : ℕ) : ℚ) ≤ f * N := by
    rw [Nat.cast_sub hN]
    push_cast
    nlinarith
  have hfloor : N - 1 ≤ split_index f N := Nat.le_floor hlow
  have htest : (test_indices shuffled (split_index f N)).length =
      N - split_index f N := by
    rw [test_indices, List.length_drop, hlen]
  exact ⟨htest, by omega⟩

/-- C3 amended witness: the theorem applied to N = 1, f = 4/5, and the
identity shuffle. -/
theorem C3_degenerate_split_witness :
    (test_indices (List.range 1) (split_index (4/5) 1)).length =
      1 - split_index (4/5) 1 ∧
    (test_indices (List.range 1) (split_index (4/5) 1)).length ≤ 1 :=
  C3_degenerate_split 1 (4/5) (List.range 1) (le_refl 1) (by norm_num)
    (by norm_num) (by norm_num) (List.Perm.refl _)

/-- C1: the split happens at trajectory granularity before flattening:
every entry of the flattened Test Dataset carries a trajectory index in
the test index set and not in the train index set, and symmetrically
for the Train Dataset — no pair in the flattened Test Dataset
originates from a trajectory index in the Train set. -/
theorem C1_no_trajectory_leakage (tab : List (List S)) (N : ℕ) (f : ℚ)
    (shuffled : List ℕ) (hperm : shuffled.Perm (List.range N)) :
    (∀ x ∈ selectFlatten (tagRows tab)
        (test_indices shuffled (split_index f N)),
      x.1 ∈ test_indices shuffled (split_index f N) ∧
      x.1 ∉ train_indices shuffled (split_index f N)) ∧
    (∀ x ∈ selectFlatten (tagRows tab)
        (train_indices shuffled (split_index f N)),
      x.1 ∈ train_indices shuffled (split_index f N) ∧
      x.1 ∉ test_indices shuffled (split_index f N)) := by
  have hnodup : shuffled.Nodup := hperm.nodup_iff.mpr (List.nodup_range N)
  have hdisj : (train_indices shuffled (split_index f N)).Disjoint
      (test_indices shuffled (split_index f N)) :=
    List.disjoint_take_drop hnodup le_rfl
  constructor
  · intro x hx
    obtain ⟨i, hi, hxi⟩ := mem_selectFlatten hx
    rw [fst_of_mem_tagRows hxi]
    exact ⟨hi, fun hmem => hdisj hmem hi⟩
  · intro x hx
    obtain ⟨i, hi, hxi⟩ := mem_selectFlatten hx
    rw [fst_of_mem_tagRows hxi]
    exact ⟨hi, fun hmem => hdisj hi hmem⟩

/-- C1 witness: the theorem applied to a two-trajectory table with the
identity shuffle and f = 4/5. -/
theorem C1_no_trajectory_leakage_witness :
    (∀ x ∈ selectFlatten (tagRows [[10], [20]])
        (test_indices (List.range 2) (split_index (4/5) 2)),
      x.1 ∈ test_indices (List.range 2) (split_index (4/5) 2) ∧
      x.1 ∉ train_indices (List.range 2) (split_index (4/5) 2)) ∧
    (∀ x ∈ selectFlatten (tagRows [[(10 : ℕ)], [20]])
        (train_indices (List.range 2) (split_index (4/5) 2)),
      x.1 ∈ train_indices (List.range 2) (split_index (4/5) 2) ∧
      x.1 ∉ test_indices (List.range 2) (split_index (4/5) 2)) :=
  C1_no_trajectory_leakage [[10], [20]] 2 (4/5) (List.range 2)
    (List.Perm.refl _)

/-- C8: under the integrator contract (one state per grid point, first
state equal to the initial state), the trajectory produced for each of
the 100 sampled initial conditions has length equal to the grid size
and starts exactly at that initial condition. -/
theorem C8_sampler_contract (odeint : S → List S) (gridLen : ℕ)
    (inits : List S) (i : ℕ)
    (hcontract : ∀ z, (odeint z).length = gridLen ∧ (odeint z).head? = some z)
    (hinits : inits.length = 100) (hi : i < 100) :
    ∃ traj, (generateTrajectories odeint inits)[i]? = some traj ∧
      traj.length = gridLen ∧ traj.head? = inits[i]? := by
  have hi2 : i < inits.length := by omega
  obtain ⟨z, hz⟩ : ∃ z, inits[i]? = some z :=
    ⟨_, List.getElem?_eq_getElem hi2⟩
  refine ⟨odeint z, ?_, (hcontract z).1, ?_⟩
  · rw [generateTrajectories, List.getElem?_map, hz]
    rfl
  · rw [(hcontract z).2, hz]

/-- C8 witness: the theorem applied to a two-point constant integrator,
100 zero initial conditions, and trajectory index 7. -/
theorem C8_sampler_contract_witness :
    ∃ traj, (generateTrajectories (fun z => [z, z])
        (List.replicate 100 (0 : ℕ)))[7]? = some traj ∧
      traj.length = 2 ∧ traj.head? = (List.replicate 100 (0 : ℕ))[7]? :=
  C8_sampler_contract (fun z => [z, z]) 2 (List.replicate 100 0) 7
    (fun z => ⟨rfl, rfl⟩) (by simp) (by omega)

/-- C6: if the persisted dataset artifact exists the pipeline loads it
and never generates trajectories; if the persisted model exists the
pipeline loads it and never trains; absence of either artifact is not
an error and leads to regeneration with a save, respectively training
with a save. -/
theorem C6_cache_or_recompute (d m : Bool) (shuffled : List ℕ) (N : ℕ) :
    Ev.generateTraj ∉ (runPipeline true m shuffled N).events ∧
    Ev.loadData ∈ (runPipeline true m shuffled N).events ∧
    Ev.trainModel ∉ (runPipeline d true shuffled N).events ∧
    Ev.loadModel ∈ (runPipeline d true shuffled N).events ∧
    Ev.generateTraj ∈ (runPipeline false m shuffled N).events ∧
    Ev.saveData ∈ (runPipeline false m shuffled N).events ∧
    Ev.trainModel ∈ (runPipeline d false shuffled N).events ∧
    Ev.saveModel ∈ (runPipeline d false shuffled N).events := by
  cases d <;> cases m <;>
    simp [runPipeline, dataEvents, modelEvents]

/-- C10: the train/test split of every run, including runs that load
both persisted artifacts, is computed from the fresh shuffle; two runs
on identical artifacts can therefore evaluate on different test
partitions, and the second test partition can overlap the trajectory
indices the first (persisted) model was trained on. -/
theorem C10_unseeded_shuffle_nondeterminism :
    (∀ (d m : Bool) (shuffled : List ℕ) (N : ℕ),
        (runPipeline d m shuffled N).train =
          train_indices shuffled (split_index (4/5) N) ∧
        (runPipeline d m shuffled N).test =
          test_indices shuffled (split_index (4/5) N)) ∧
    ∃ s₁ s₂ : List ℕ, s₁.Perm (List.range 100) ∧ s₂.Perm (List.range 100) ∧
      (runPipeline true true s₁ 100).test ≠
        (runPipeline true true s₂ 100).test ∧
      ∃ i, i ∈ (runPipeline true true s₂ 100).test ∧
        i ∈ (runPipeline true true s₁ 100).train := by
  have h80 : split_index (4/5) 100 = 80 := by
    rw [split_index]
    norm_num
  constructor
  · intro d m shuffled N
    exact ⟨rfl, rfl⟩
  · refine ⟨List.range 100, (List.range 100).reverse, List.Perm.refl _,
      List.reverse_perm _, ?_, 0, ?_, ?_⟩
    · show test_indices (List.range 100) (split_index (4/5) 100) ≠
        test_indices (List.range 100).reverse (split_index (4/5) 100)
      rw [h80]
      decide
    · show 0 ∈ test_indices (List.range 100).reverse (split_index (4/5) 100)
      rw [h80]
      decide
    · show 0 ∈ train_indices (List.range 100) (split_index (4/5) 100)
      rw [h80]
      decide

theorem dataset_sizes (odeint : S → List S) (inits : List S)
    (shuffled : List ℕ) (g N : ℕ)
    (hode : ∀ z, (odeint z).length = g) (hinits : inits.length = N)
    (hshuf : shuffled.Perm (List.range N)) :
    (trainDatasetOf odeint inits shuffled).length =
      split_index (4/5) N * (g - 1) ∧
    (testDatasetOf odeint inits shuffled).length =
      (N - split_index (4/5) N) * (g - 1) := by
  have hlen : shuffled.length = N := hshuf.length_eq.trans (List.length_range N)
  have hN : (inputTable odeint inits).length = N := by
    simp [inputTable, generateTrajectories, hinits]
  have hrowIn : ∀ row ∈ inputTable odeint inits, row.length = g - 1 := by
    intro row hrow
    simp only [inputTable, generateTrajectories, List.map_map, List.mem_map] at hrow
    obtain ⟨z, _, rfl⟩ := hrow
    simp [pairInputs, hode]
  have hrowOut : ∀ row ∈ outputTable odeint inits, row.length = g - 1 := by
    intro row hrow
    simp only [outputTable, generateTrajectories, List.map_map, List.mem_map] at hrow
    obtain ⟨z, _, rfl⟩ := hrow
    simp [pairOutputs, hode]
  have hkN : split_index (4/5) N ≤ N := split_index_le N (4/5) (by norm_num)
  have hmemTrain : ∀ i ∈ train_indices shuffled (split_index (4/5) N),
      i < N := by
    intro i hi
    have h1 : i ∈ shuffled := List.mem_of_mem_take hi
    simpa using hshuf.mem_iff.mp h1
  have hmemTest : ∀ i ∈ test_indices shuffled (split_index (4/5) N),
      i < N := by
    intro i hi
    have h1 : i ∈ shuffled := List.mem_of_mem_drop hi
    simpa using hshuf.mem_iff.mp h1
  have hltr : (train_indices shuffled (split_index (4/5) N)).length =
      split_index (4/5) N := by
    rw [train_indices, List.length_take, hlen]
    exact min_eq_left hkN
  have hlte : (test_indices shuffled (split_index (4/5) N)).length =
      N - split_index (4/5) N := by
    rw [test_indices, List.length_drop, hlen]
  have hOutN : (outputTable odeint inits).length = N := by
    simp [outputTable, generateTrajectories, hinits]
  constructor
  · rw [trainDatasetOf]
    simp only [hN]
    rw [List.length_zip,
      length_selectFlatten _ _ (g - 1) hrowIn (fun i hi => hN ▸ hmemTrain i hi),
      length_selectFlatten _ _ (g - 1) hrowOut (fun i hi => hOutN ▸ hmemTrain i hi),
      hltr, min_self]
  · rw [testDatasetOf]
    simp only [hN]
    rw [List.length_zip,
      length_selectFlatten _ _ (g - 1) hrowIn (fun i hi => hN ▸ hmemTest i hi),
      length_selectFlatten _ _ (g - 1) hrowOut (fun i hi => hOutN ▸ hmemTest i hi),
      hlte, min_self]

/-- C7: in the concrete configurations — chaotic system with a
10000-point grid, population system with a 1000-point grid, both with
100 trajectories and the 4/5 split — the flattened Train Dataset has
exactly 80 × 9999 = 799920 (respectively 80 × 999 = 79920) pairs and
the Test Dataset exactly 20 × 9999 = 199980 (respectively
20 × 999 = 19980) pairs. -/
theorem C7_concrete_counts {T : Type u} (odeL : S → List S) (odeP : T → List T)
    (initsL : List S) (initsP : List T) (shufL shufP : List ℕ)
    (hodeL : ∀ z, (odeL z).length = 10000)
    (hodeP : ∀ z, (odeP z).length = 1000)
    (hinitsL : initsL.length = 100) (hinitsP : initsP.length = 100)
    (hshufL : shufL.Perm (List.range 100))
    (hshufP : shufP.Perm (List.range 100)) :
    (trainDatasetOf odeL initsL shufL).length = 799920 ∧
    (testDatasetOf odeL initsL shufL).length = 199980 ∧
    (trainDatasetOf odeP initsP shufP).length = 79920 ∧
    (testDatasetOf odeP initsP shufP).length = 19980 := by
  have h80 : split_index (4/5) 100 = 80 := by
    rw [split_index]
    norm_num
  obtain ⟨hL1, hL2⟩ := dataset_sizes odeL initsL shufL 10000 100 hodeL hinitsL hshufL
  obtain ⟨hP1, hP2⟩ := dataset_sizes odeP initsP shufP 1000 100 hodeP hinitsP hshufP
  rw [h80] at hL1 hL2 hP1 hP2
  refine ⟨?_, ?_, ?_, ?_⟩ <;> simp only [hL1, hL2, hP1, hP2]

/-- C7 witness: the theorem applied to constant-trajectory integrators
of grid sizes 10000 and 1000, 100 zero initial conditions each, and
identity shuffles. -/
theorem C7_concrete_counts_witness :
    (trainDatasetOf (fun z => List.replicate 10000 z)
      (List.replicate 100 (0 : ℕ)) (List.range 100)).length = 799920 ∧
    (testDatasetOf (fun z => List.replicate 10000 z)
      (List.replicate 100 (0 : ℕ)) (List.range 100)).length = 199980 ∧
    (trainDatasetOf (fun z => List.replicate 1000 z)
      (List.replicate 100 (0 : ℕ)) (List.range 100)).length = 79920 ∧
    (testDatasetOf (fun z => List.replicate 1000 z)
      (List.replicate 100 (0 : ℕ)) (List.range 100)).length = 19980 :=
  C7_concrete_counts (fun z => List.replicate 10000 z)
    (fun z => List.replicate 1000 z)
    (List.replicate 100 0) (List.replicate 100 0)
    (List.range 100) (List.range 100)
    (fun z => List.length_replicate 10000 z)
    (fun z => List.length_replicate 1000 z)
    (List.length_replicate 100 0) (List.length_replicate 100 0)
    (List.Perm.refl _) (List.Perm.refl _)

end NNDS
